import Mathlib

/-!
Verification of the computed core of the CS-1660 video-platform backend.

The development shallowly embeds the computed (non-I/O) behaviour of
`src/controllers/videoController.ts`:

* the reaction toggle counter of `incrementLikeDislikeCount`
  (lines 1653-1670): given the user's current per-video reaction and the
  requested reaction type, compute the next per-user record and the
  like/dislike counter deltas;
* the seeded shuffle paginator of `getVideoOptions`
  (lines 1073-1076 and 1122-1136): query-string normalization
  (`parseInt(x) || default`, `seed.toLowerCase() || ""`), a seeded
  pseudo-random permutation, JavaScript `Array.prototype.slice`
  semantics, and the `hasMore` flag;
* the cursor pagination of `getComments` (lines 1499-1535): fetch up to
  11 comments ordered by timestamp descending starting after the cursor
  document, answer the first 10, and set `hasMore` when an 11th exists.

Machine numbers: the TypeScript values involved are small integers, so
they are embedded as `Int`/`Nat` (no overflow is reachable: all
arithmetic stays far below 2^53, the bound of exact doubles).

The bodies of the `seedrandom` library and of the JavaScript runtime's
`Array.prototype.sort` are not part of this repository; following the
spec ("derive a deterministic pseudo-random generator from seed",
"for each pair compared, draw one value and reorder") they are modelled
by a deterministic comparator-draw insertion sort seeded from the seed
string.  Every claim proved about the shuffle is invariant under the
choice of that generator.
-/

/-! ### Reaction toggle counter (`incrementLikeDislikeCount`) -/

/-- The two valid values of the `type` route parameter, after the
validation `type !== "like" && type !== "dislike"` has rejected
everything else (lines 1635-1640). -/
inductive ReactionType where
  | like
  | dislike
deriving DecidableEq, Repr

/-- Result of one reaction toggle: the per-user record to persist
(`none` means the record is deleted) and the two counter deltas. -/
structure ReactionUpdate where
  next : Option ReactionType
  likeDelta : Int
  dislikeDelta : Int
deriving DecidableEq, Repr

/-- Embeds lines 1648-1670 of `videoController.ts`: `currentReaction` is
`null` (`none`) when the reaction document does not exist; when the
requested `type` equals the current reaction the record is deleted and
that counter decremented, otherwise the record is overwritten with
`type`, the old reaction's counter (if any) decremented and the
requested counter incremented. -/
def applyReaction (currentReaction : Option ReactionType) (t : ReactionType) :
    ReactionUpdate :=
  if currentReaction = some t then
    { next := none
      likeDelta := if t = ReactionType.like then -1 else 0
      dislikeDelta := if t = ReactionType.dislike then -1 else 0 }
  else
    { next := some t
      likeDelta :=
        (match currentReaction with
          | some c => if c = ReactionType.like then -1 else 0
          | none => 0) + (if t = ReactionType.like then 1 else 0)
      dislikeDelta :=
        (match currentReaction with
          | some c => if c = ReactionType.dislike then -1 else 0
          | none => 0) + (if t = ReactionType.dislike then 1 else 0) }

/-! #### Sequential store model for the reaction invariant

The per-user reaction documents of one video form the subcollection
`video/{videoId}/reactions`, keyed by the user id; the video document
carries the aggregate `likes`/`dislikes` counters.  A toggle step reads
the user's record, computes `applyReaction`, persists the new record
(deleting it when the next state is `None`) and applies the delta to
the counters — the sequential composition of lines 1645-1675. -/

/-- The records of one video's `reactions` subcollection (key = user id,
value = stored `type` field) together with the video's aggregate
counters. -/
structure ReactionStore where
  records : List (String × ReactionType)
  likes : Int
  dislikes : Int
deriving DecidableEq, Repr

/-- Reading `reactionRef.get()`: the stored `type` when the user's
document exists, `null` otherwise (lines 1648-1651). -/
def lookupReaction (recs : List (String × ReactionType)) (u : String) :
    Option ReactionType :=
  (recs.find? (fun q => decide (q.1 = u))).map (fun q => q.2)

/-- Removing the user's document (`reactionRef.delete()`). -/
def eraseUser (recs : List (String × ReactionType)) (u : String) :
    List (String × ReactionType) :=
  recs.filter (fun q => decide (¬ q.1 = u))

/-- One sequential reaction-toggle step: read the current record,
compute the transition, persist the next record (`delete` when `None`,
`set` otherwise) and apply the delta atomically to the counters. -/
def toggleStep (st : ReactionStore) (u : String) (t : ReactionType) :
    ReactionStore :=
  let upd := applyReaction (lookupReaction st.records u) t
  { records :=
      match upd.next with
      | none => eraseUser st.records u
      | some r => (u, r) :: eraseUser st.records u
    likes := st.likes + upd.likeDelta
    dislikes := st.dislikes + upd.dislikeDelta }

/-- Number of records currently in state `Liked`. -/
def likeCount (recs : List (String × ReactionType)) : Nat :=
  recs.countP (fun q => decide (q.2 = ReactionType.like))

/-- Number of records currently in state `Disliked`. -/
def dislikeCount (recs : List (String × ReactionType)) : Nat :=
  recs.countP (fun q => decide (q.2 = ReactionType.dislike))

/-- The spec's data-model invariant: at most one record per user (no
duplicate keys), and the aggregate counters equal the number of records
in the corresponding state. -/
def StoreInv (st : ReactionStore) : Prop :=
  (st.records.map Prod.fst).Nodup ∧
    st.likes = likeCount st.records ∧ st.dislikes = dislikeCount st.records

/-! ### Deterministic shuffle paginator (`getVideoOptions`) -/

/-- Modelled from the spec: "Derive a deterministic pseudo-random
generator from `seed`".  The body of the `seedrandom` npm library is not
part of this repository; the key derivation is modelled as a
deterministic fold over the seed's characters. -/
def mixSeed (s : String) : Nat :=
  s.data.foldl (fun a c => (a * 31 + c.toNat) % 2 ^ 32) 7

/-- Modelled from the spec: one step of the deterministic generator
(a linear congruential step reduced mod `2^32`). -/
def nextRand (st : Nat) : Nat :=
  (st * 1664525 + 1013904223) % 2 ^ 32

/-- Modelled from the spec: "for each pair compared, draw one value and
reorder".  Inserts `a` into `l`, drawing one generator value per
comparison: a draw below `2^31` models `rng() - 0.5 < 0` (keep `a`
before the compared element), anything else moves past it.  Returns the
advanced generator state with the new list. -/
def insertDraw : Nat → α → List α → Nat × List α
  | st, a, [] => (st, [a])
  | st, a, b :: l =>
    let st' := nextRand st
    if st' < 2 ^ 31 then (st', a :: b :: l)
    else
      let r := insertDraw st' a l
      (r.1, b :: r.2)

/-- Modelled from the spec: the comparison sort of
`videoOptions.sort(() => rng() - 0.5)` as an insertion sort threading
the generator state (the comparator ignores the elements, so the
resulting permutation depends only on the seed and the input length). -/
def sortDraw : Nat → List α → Nat × List α
  | st, [] => (st, [])
  | st, a :: l =>
    let r := sortDraw st l
    insertDraw r.1 a r.2

/-- The seeded permutation used by the feed. -/
def shuffleList (seed : String) (l : List α) : List α :=
  (sortDraw (mixSeed seed) l).2

/-- JavaScript `Array.prototype.slice(start, end)` (ECMA-262): negative
indices count from the end of the array, then both indices are clamped
to `[0, length]` and the elements in `[start, end)` are returned. -/
def jsSlice (l : List α) (start fin : Int) : List α :=
  let len : Int := l.length
  let s := if start < 0 then max (len + start) 0 else min start len
  let e := if fin < 0 then max (len + fin) 0 else min fin len
  (l.take e.toNat).drop s.toNat

/-- The JSON body produced by lines 1133-1136: the current page of
candidates together with the `hasMore` flag. -/
structure PageResult (α : Type) where
  pageItems : List α
  hasMore : Bool
deriving DecidableEq, Repr

/-- Line 1123: `String(seed) || Date.now().toString()` — a non-empty
seed is used as is; the empty seed falls back to the request time. -/
def rngSeedOf (seed : String) (now : Nat) : String :=
  if seed = "" then Nat.repr now else seed

/-- Embeds lines 1122-1136 of `getVideoOptions`: shuffle the candidates
with the seeded generator, slice `[(page-1)*limit, (page-1)*limit +
limit)` with JavaScript slice semantics, and report
`hasMore = startIndex + limit < length`.  `now` is the value
`Date.now()` would return, used only when the seed is empty. -/
def paginate (videos : List α) (seed : String) (page limit : Int)
    (now : Nat) : PageResult α :=
  let randomizedVideos := shuffleList (rngSeedOf seed now) videos
  let startIndex := (page - 1) * limit
  { pageItems := jsSlice randomizedVideos startIndex (startIndex + limit)
    hasMore := decide (startIndex + limit < (randomizedVideos.length : Int)) }

/-! #### Query-string normalization (lines 1073-1076) -/

/-- Value of a decimal digit character, if it is one. -/
def digitVal (c : Char) : Option Nat :=
  if 48 ≤ c.toNat ∧ c.toNat ≤ 57 then some (c.toNat - 48) else none

/-- Value of a hexadecimal digit character, if it is one. -/
def hexDigitVal (c : Char) : Option Nat :=
  if 48 ≤ c.toNat ∧ c.toNat ≤ 57 then some (c.toNat - 48)
  else if 97 ≤ c.toNat ∧ c.toNat ≤ 102 then some (c.toNat - 87)
  else if 65 ≤ c.toNat ∧ c.toNat ≤ 70 then some (c.toNat - 55)
  else none

/-- Accumulates the value of the longest digit run at the head. -/
def digitsValue (dv : Char → Option Nat) (base : Nat) :
    List Char → Nat → Nat
  | [], acc => acc
  | c :: r, acc =>
    match dv c with
    | some d => digitsValue dv base r (acc * base + d)
    | none => acc

/-- Parses a digit run; `none` when the first character is no digit. -/
def parseDigitRun (dv : Char → Option Nat) (base : Nat) :
    List Char → Option Nat
  | [] => none
  | c :: r =>
    match dv c with
    | some d => some (digitsValue dv base r d)
    | none => none

/-- JavaScript whitespace accepted by `parseInt`. -/
def isJsSpace (c : Char) : Bool :=
  c.toNat = 32 ∨ c.toNat = 9 ∨ c.toNat = 10 ∨ c.toNat = 13 ∨ c.toNat = 12 ∨
    c.toNat = 11

/-- ECMA-262 `parseInt(string)` with no radix argument: skip leading
whitespace, read an optional sign, recognise a `0x`/`0X` prefix as
hexadecimal, then take the longest digit run and ignore any trailing
characters; `none` models `NaN`. -/
def jsParseInt (s : String) : Option Int :=
  let cs := s.data.dropWhile isJsSpace
  let signed : Int × List Char :=
    match cs with
    | '+' :: r => (1, r)
    | '-' :: r => (-1, r)
    | _ => (1, cs)
  let body : Option Nat :=
    match signed.2 with
    | '0' :: x :: r =>
      if x.toNat = 120 ∨ x.toNat = 88 then parseDigitRun hexDigitVal 16 r
      else parseDigitRun digitVal 10 signed.2
    | _ => parseDigitRun digitVal 10 signed.2
  body.map (fun n => signed.1 * n)

/-- JavaScript `v || d` on a number `v`: `NaN` (here `none`) and `0` are
falsy and give the default, every other number is kept. -/
def jsOrInt (v : Option Int) (d : Int) : Int :=
  match v with
  | none => d
  | some n => if n = 0 then d else n

/-- ASCII lowercasing of one character, the fragment of
`String.prototype.toLowerCase()` exercised by this API (seeds are sent
as URL query values). -/
def lowerChar (c : Char) : Char :=
  if 65 ≤ c.toNat ∧ c.toNat ≤ 90 then Char.ofNat (c.toNat + 32) else c

/-- The map `String.prototype.toLowerCase()` on ASCII strings. -/
def jsToLower (s : String) : String :=
  String.mk (s.data.map lowerChar)

/-- Line 1073: `(req.query.seed as string)?.toLowerCase() || ""` — a
missing seed parameter becomes the empty string, a present one is
lowercased. -/
def queryToLower (seedQ : Option String) : String :=
  match seedQ with
  | none => ""
  | some s => jsToLower s

/-- Embeds `getVideoOptions` from the query strings down (lines
1073-1076 then 1122-1136): `seed` is lowercased with empty fallback,
`page` and `limit` are `parseInt(x) || 1` resp. `parseInt(x) || 10`,
and the result is the seeded paginated slice. -/
def getVideoOptionsCore (videos : List α) (seedQ pageQ limitQ : Option String)
    (now : Nat) : PageResult α :=
  paginate videos (queryToLower seedQ)
    (jsOrInt (Option.bind pageQ jsParseInt) 1)
    (jsOrInt (Option.bind limitQ jsParseInt) 10) now

/-- Number of pages the client walks before `hasMore` turns false: one
page for an empty candidate list, `⌈len/n⌉` otherwise. -/
def numPages (len n : Nat) : Nat :=
  if len = 0 then 1 else (len - 1) / n + 1

/-! ### Cursor-paginated comment listing (`getComments`) -/

/-- One document of the `video/{videoId}/comments` subcollection, as
written by `postComment`: the document id, the stored fields and the
ISO-8601 `timestamp` string (Firestore compares strings
lexicographically, which is how the query orders them). -/
structure CommentDoc where
  id : String
  commenterId : String
  comment : String
  timestamp : String
deriving DecidableEq, Repr

/-- The sort key of a comment under
`orderBy("timestamp", "desc")`: Firestore appends the document id as
the final tie-breaking key. -/
def ckey (d : CommentDoc) : String × String := (d.timestamp, d.id)

/-- Strict lexicographic order on sort keys. -/
def keyLt (x y : String × String) : Prop :=
  x.1 < y.1 ∨ (x.1 = y.1 ∧ x.2 < y.2)

instance (x y : String × String) : Decidable (keyLt x y) :=
  inferInstanceAs (Decidable (x.1 < y.1 ∨ (x.1 = y.1 ∧ x.2 < y.2)))

/-- Whether `a` may precede `b` in the descending query order: `a`'s
key is at least `b`'s. -/
def commentRel (a b : CommentDoc) : Prop :=
  keyLt (ckey b) (ckey a) ∨ ckey a = ckey b

instance (a b : CommentDoc) : Decidable (commentRel a b) :=
  inferInstanceAs (Decidable (keyLt (ckey b) (ckey a) ∨ ckey a = ckey b))

/-- Modelled Firestore query evaluation: the documents of the
collection in `orderBy("timestamp", "desc")` order (descending
timestamp, id as descending tie-breaker). -/
def orderComments (l : List CommentDoc) : List CommentDoc :=
  List.insertionSort commentRel l

/-- The suffix of `l` strictly after the first occurrence of `d`
(empty when `d` does not occur): Firestore `startAfter(doc)`. -/
def dropThrough (d : CommentDoc) : List CommentDoc → List CommentDoc
  | [] => []
  | e :: l => if e = d then l else dropThrough d l

/-- Lines 1507-1517: `if (lastCommentId)` (the empty string is falsy),
then fetch that comment document and use it as a cursor only when it
exists. -/
def cursorLookup (comments : List CommentDoc)
    (lastCommentId : Option String) : Option CommentDoc :=
  match lastCommentId with
  | none => none
  | some cid =>
    if cid = "" then none
    else comments.find? (fun d => decide (d.id = cid))

/-- The comments eligible for this page: everything strictly after the
cursor in query order (or the whole ordered collection without a
cursor). -/
def commentsAfterCursor (comments : List CommentDoc)
    (lastCommentId : Option String) : List CommentDoc :=
  match cursorLookup comments lastCommentId with
  | some d => dropThrough d (orderComments comments)
  | none => orderComments comments

/-- Embeds `getComments` (lines 1499-1535): the query takes the first
11 eligible comments (`limit(11)` after `startAfter`), the response
body contains `snapshot.docs.slice(0, 10)` and
`hasMore = snapshot.docs.length > 10`. -/
def getCommentsCore (comments : List CommentDoc)
    (lastCommentId : Option String) : List CommentDoc × Bool :=
  let docs := (commentsAfterCursor comments lastCommentId).take 11
  (jsSlice docs 0 10, decide (10 < docs.length))

/-- A small concrete comment collection (distinct ids) used to witness
the comment-listing theorem. -/
def commentsEx : List CommentDoc :=
  [⟨"b", "u2", "yo", "2024-01-02"⟩,
   ⟨"a", "u1", "hi", "2024-01-03"⟩,
   ⟨"c", "u3", "ok", "2024-01-01"⟩]

/-! ### Properties -/

/-- Claim C1: the reaction toggle realizes exactly the six-row
transition table: requesting the reaction currently held clears it with
a `-1` delta on its counter, requesting the opposite reaction replaces
it with `-1` on the old counter and `+1` on the new one, and reacting
from `None` adds `+1` on the requested counter; in particular
`applyReaction (Liked, Disliked) = (Disliked, {-1, +1})`. -/
theorem applyReaction_transition_table :
    applyReaction none ReactionType.like =
      ⟨some ReactionType.like, 1, 0⟩ ∧
    applyReaction none ReactionType.dislike =
      ⟨some ReactionType.dislike, 0, 1⟩ ∧
    applyReaction (some ReactionType.like) ReactionType.like =
      ⟨none, -1, 0⟩ ∧
    applyReaction (some ReactionType.like) ReactionType.dislike =
      ⟨some ReactionType.dislike, -1, 1⟩ ∧
    applyReaction (some ReactionType.dislike) ReactionType.dislike =
      ⟨none, 0, -1⟩ ∧
    applyReaction (some ReactionType.dislike) ReactionType.like =
      ⟨some ReactionType.like, 1, -1⟩ := by
  decide

theorem eraseUser_eq_of_find?_none {recs : List (String × ReactionType)}
    {u : String} (hf : recs.find? (fun q => decide (q.1 = u)) = none) :
    eraseUser recs u = recs := by
  rw [List.find?_eq_none] at hf
  apply List.filter_eq_self.mpr
  intro a ha
  simpa using fun h => (hf a ha) (by simpa using h)

theorem records_perm_of_find? {recs : List (String × ReactionType)}
    {u : String} {p : String × ReactionType}
    (hnd : (recs.map Prod.fst).Nodup)
    (hf : recs.find? (fun q => decide (q.1 = u)) = some p) :
    recs.Perm (p :: eraseUser recs u) := by
  induction recs with
  | nil => simp at hf
  | cons q rest ih =>
    rw [List.map_cons, List.nodup_cons] at hnd
    by_cases hq : q.1 = u
    · rw [List.find?_cons_of_pos _ (by simpa using hq)] at hf
      obtain rfl : q = p := by simpa using hf
      have hrest : eraseUser rest u = rest := by
        apply List.filter_eq_self.mpr
        intro a ha
        have hne : ¬ a.1 = u := fun h => hnd.1 (by
          rw [hq, ← h]
          exact List.mem_map_of_mem Prod.fst ha)
        simpa using hne
      have herase : eraseUser (q :: rest) u = eraseUser rest u := by
        simp [eraseUser, hq]
      rw [herase, hrest]
    · rw [List.find?_cons_of_neg _ (by simpa using hq)] at hf
      have herase : eraseUser (q :: rest) u = q :: eraseUser rest u := by
        simp [eraseUser, hq]
      rw [herase]
      exact ((ih hnd.2 hf).cons q).trans (List.Perm.swap p q _)

theorem find?_key_eq {recs : List (String × ReactionType)} {u : String}
    {p : String × ReactionType}
    (hf : recs.find? (fun q => decide (q.1 = u)) = some p) : p.1 = u := by
  have := List.find?_some hf
  simpa using this

theorem nodup_eraseUser {recs : List (String × ReactionType)} {u : String}
    (hnd : (recs.map Prod.fst).Nodup) :
    ((eraseUser recs u).map Prod.fst).Nodup :=
  hnd.sublist ((List.filter_sublist recs).map Prod.fst)

theorem not_mem_eraseUser (recs : List (String × ReactionType)) (u : String) :
    u ∉ (eraseUser recs u).map Prod.fst := by
  intro hmem
  obtain ⟨q, hq, hqu⟩ := List.mem_map.mp hmem
  have := List.of_mem_filter hq
  simp at this
  exact this hqu

theorem nodup_cons_eraseUser {recs : List (String × ReactionType)}
    {u : String} (r : ReactionType) (hnd : (recs.map Prod.fst).Nodup) :
    (((u, r) :: eraseUser recs u).map Prod.fst).Nodup := by
  rw [List.map_cons, List.nodup_cons]
  exact ⟨not_mem_eraseUser recs u, nodup_eraseUser hnd⟩

theorem likeCount_cons (u : String) (r : ReactionType)
    (l : List (String × ReactionType)) :
    likeCount ((u, r) :: l) =
      likeCount l + (if r = ReactionType.like then 1 else 0) := by
  simp [likeCount, List.countP_cons]

theorem dislikeCount_cons (u : String) (r : ReactionType)
    (l : List (String × ReactionType)) :
    dislikeCount ((u, r) :: l) =
      dislikeCount l + (if r = ReactionType.dislike then 1 else 0) := by
  simp [dislikeCount, List.countP_cons]

theorem toggleStep_of_none (st : ReactionStore) (u : String)
    (t : ReactionType) (hcur : lookupReaction st.records u = none) :
    toggleStep st u t =
      { records := (u, t) :: eraseUser st.records u
        likes := st.likes + (if t = ReactionType.like then 1 else 0)
        dislikes := st.dislikes +
          (if t = ReactionType.dislike then 1 else 0) } := by
  cases t <;> simp [toggleStep, hcur, applyReaction]

theorem toggleStep_of_same (st : ReactionStore) (u : String)
    (t : ReactionType) (hcur : lookupReaction st.records u = some t) :
    toggleStep st u t =
      { records := eraseUser st.records u
        likes := st.likes + (if t = ReactionType.like then -1 else 0)
        dislikes := st.dislikes +
          (if t = ReactionType.dislike then -1 else 0) } := by
  cases t <;> simp [toggleStep, hcur, applyReaction]

theorem toggleStep_of_other (st : ReactionStore) (u : String)
    (c t : ReactionType) (hne : c ≠ t)
    (hcur : lookupReaction st.records u = some c) :
    toggleStep st u t =
      { records := (u, t) :: eraseUser st.records u
        likes := st.likes + ((if c = ReactionType.like then -1 else 0) +
          (if t = ReactionType.like then 1 else 0))
        dislikes := st.dislikes +
          ((if c = ReactionType.dislike then -1 else 0) +
            (if t = ReactionType.dislike then 1 else 0)) } := by
  cases c <;> cases t <;>
    first
    | exact absurd rfl hne
    | simp [toggleStep, hcur, applyReaction]

/-- Claim C6: in the sequential model every reaction-toggle step
preserves the invariant: at most one record per (video, user) pair and
aggregate counters equal to the number of records in state `Liked`
resp. `Disliked`, the delta being applied atomically with the record
update. -/
theorem toggleStep_preserves_inv (st : ReactionStore) (u : String)
    (t : ReactionType) (h : StoreInv st) : StoreInv (toggleStep st u t) := by
  obtain ⟨hnd, hl, hd⟩ := h
  cases hf : st.records.find? (fun q => decide (q.1 = u)) with
  | none =>
    have herase := eraseUser_eq_of_find?_none hf
    have hcur : lookupReaction st.records u = none := by
      simp [lookupReaction, hf]
    rw [toggleStep_of_none st u t hcur]
    refine ⟨nodup_cons_eraseUser t hnd, ?_, ?_⟩
    · show st.likes + (if t = ReactionType.like then 1 else 0) =
        likeCount ((u, t) :: eraseUser st.records u)
      rw [likeCount_cons, herase, hl]
      cases t <;> simp
    · show st.dislikes + (if t = ReactionType.dislike then 1 else 0) =
        dislikeCount ((u, t) :: eraseUser st.records u)
      rw [dislikeCount_cons, herase, hd]
      cases t <;> simp
  | some p =>
    have hperm := records_perm_of_find? hnd hf
    have hcur : lookupReaction st.records u = some p.2 := by
      simp [lookupReaction, hf]
    have hlc : likeCount st.records =
        (if p.2 = ReactionType.like then 1 else 0) +
          likeCount (eraseUser st.records u) := by
      have := hperm.countP_eq (fun q => decide (q.2 = ReactionType.like))
      unfold likeCount
      rw [this, List.countP_cons]
      cases hp2 : p.2 <;> simp [hp2, Nat.add_comm]
    have hdc : dislikeCount st.records =
        (if p.2 = ReactionType.dislike then 1 else 0) +
          dislikeCount (eraseUser st.records u) := by
      have := hperm.countP_eq (fun q => decide (q.2 = ReactionType.dislike))
      unfold dislikeCount
      rw [this, List.countP_cons]
      cases hp2 : p.2 <;> simp [hp2, Nat.add_comm]
    by_cases hsame : p.2 = t
    · rw [toggleStep_of_same st u t (hsame ▸ hcur)]
      refine ⟨nodup_eraseUser hnd, ?_, ?_⟩
      · show st.likes + (if t = ReactionType.like then -1 else 0) =
          likeCount (eraseUser st.records u)
        rw [hl, hlc, hsame]
        cases t <;> simp
      · show st.dislikes + (if t = ReactionType.dislike then -1 else 0) =
          dislikeCount (eraseUser st.records u)
        rw [hd, hdc, hsame]
        cases t <;> simp
    · rw [toggleStep_of_other st u p.2 t hsame hcur]
      refine ⟨nodup_cons_eraseUser t hnd, ?_, ?_⟩
      · show st.likes + ((if p.2 = ReactionType.like then -1 else 0) +
            (if t = ReactionType.like then 1 else 0)) =
          likeCount ((u, t) :: eraseUser st.records u)
        rw [likeCount_cons, hl, hlc]
        cases hp2 : p.2 <;> rw [hp2] at hsame <;> cases t <;>
          first
          | exact absurd rfl hsame
          | simp
      · show st.dislikes + ((if p.2 = ReactionType.dislike then -1 else 0) +
            (if t = ReactionType.dislike then 1 else 0)) =
          dislikeCount ((u, t) :: eraseUser st.records u)
        rw [dislikeCount_cons, hd, hdc]
        cases hp2 : p.2 <;> rw [hp2] at hsame <;> cases t <;>
          first
          | exact absurd rfl hsame
          | simp

/-- Witness for claim C6: the invariant holds of the empty store and is
preserved by a concrete toggle. -/
theorem toggleStep_preserves_inv_witness :
    StoreInv (toggleStep ⟨[], 0, 0⟩ ("alice") ReactionType.like) :=
  toggleStep_preserves_inv ⟨[], 0, 0⟩ ("alice") ReactionType.like
    (by constructor <;> simp [likeCount, dislikeCount])

/-- Claim C7: from `None`, liking and then liking again returns the
state to `None`; the second step's delta is `{-1, 0}` and the two
deltas sum to zero on both counters. -/
theorem applyReaction_like_toggle_roundtrip :
    (applyReaction none ReactionType.like).next = some ReactionType.like ∧
    applyReaction (applyReaction none ReactionType.like).next
        ReactionType.like = ⟨none, -1, 0⟩ ∧
    (applyReaction none ReactionType.like).likeDelta +
      (applyReaction (applyReaction none ReactionType.like).next
          ReactionType.like).likeDelta = 0 ∧
    (applyReaction none ReactionType.like).dislikeDelta +
      (applyReaction (applyReaction none ReactionType.like).next
          ReactionType.like).dislikeDelta = 0 := by
  decide

theorem insertDraw_perm (st : Nat) (a : α) (l : List α) :
    (insertDraw st a l).2.Perm (a :: l) := by
  induction l generalizing st with
  | nil => simp [insertDraw]
  | cons b l ih =>
    rw [insertDraw]
    split
    · simp
    · exact ((ih (nextRand st)).cons b).trans (List.Perm.swap a b l)

theorem sortDraw_perm (st : Nat) (l : List α) : (sortDraw st l).2.Perm l := by
  induction l generalizing st with
  | nil => simp [sortDraw]
  | cons a l ih =>
    rw [sortDraw]
    exact (insertDraw_perm _ a _).trans ((ih st).cons a)

theorem shuffleList_perm (seed : String) (l : List α) :
    (shuffleList seed l).Perm l :=
  sortDraw_perm (mixSeed seed) l

theorem shuffleList_length (seed : String) (l : List α) :
    (shuffleList seed l).length = l.length :=
  (shuffleList_perm seed l).length_eq

theorem jsSlice_eq_drop_take (l : List α) (s n : Int) (hs : 0 ≤ s)
    (hn : 0 ≤ n) : jsSlice l s (s + n) = (l.drop s.toNat).take n.toNat := by
  simp only [jsSlice]
  rw [if_neg (by omega), if_neg (by omega), List.drop_take]
  by_cases hsl : s ≤ (l.length : Int)
  · have h1 : (min s (l.length : Int)).toNat = s.toNat := by omega
    by_cases hel : s + n ≤ (l.length : Int)
    · have h2 : (min (s + n) (l.length : Int)).toNat = s.toNat + n.toNat := by
        omega
      rw [h1, h2]
      congr 1
      omega
    · have h2 : (min (s + n) (l.length : Int)).toNat = l.length := by omega
      rw [h1, h2]
      rw [List.take_of_length_le (by rw [List.length_drop]),
        List.take_of_length_le (by rw [List.length_drop]; omega)]
  · have h1 : (min s (l.length : Int)).toNat = l.length := by omega
    rw [h1]
    rw [List.drop_eq_nil_of_le (le_refl l.length),
      List.drop_eq_nil_of_le (by omega)]
    simp

theorem paginate_pageItems_eq (videos : List α) (seed : String)
    (page limit : Int) (now : Nat) (h1 : 1 ≤ page) (h2 : 0 < limit) :
    (paginate videos seed page limit now).pageItems =
      ((shuffleList (rngSeedOf seed now) videos).drop
        (((page - 1) * limit).toNat)).take limit.toNat := by
  show jsSlice (shuffleList (rngSeedOf seed now) videos)
      ((page - 1) * limit) ((page - 1) * limit + limit) = _
  exact jsSlice_eq_drop_take _ _ _
    (mul_nonneg (by omega) (by omega)) (by omega)

theorem paginate_hasMore_eq (videos : List α) (seed : String)
    (page limit : Int) (now : Nat) :
    (paginate videos seed page limit now).hasMore =
      decide (page * limit < (videos.length : Int)) := by
  show decide ((page - 1) * limit + limit <
      ((shuffleList (rngSeedOf seed now) videos).length : Int)) = _
  rw [shuffleList_length]
  have h : (page - 1) * limit + limit = page * limit := by ring
  rw [h]

/-- Claim C2: with a non-empty seed the paginator is a deterministic
function of the candidates, the seed and the page arguments only — the
request time (the only process-global input in the model, used as the
fallback generator seed) does not influence the result, so two calls
with the same arguments return identical results. -/
theorem paginate_deterministic (videos : List α) (seed : String)
    (hs : seed ≠ "") (page limit : Int) (now1 now2 : Nat) :
    paginate videos seed page limit now1 =
      paginate videos seed page limit now2 := by
  have h : rngSeedOf seed now1 = rngSeedOf seed now2 := by
    simp [rngSeedOf, hs]
  unfold paginate
  rw [h]

/-- Witness for claim C2 at a concrete seed, page and pair of request
times. -/
theorem paginate_deterministic_witness :
    paginate (List.range 4) ("s") 2 2 5 = paginate (List.range 4) ("s") 2 2 11 :=
  paginate_deterministic (List.range 4) ("s") (by decide) 2 2 5 11

/-- Claim C8: paginating the empty candidate list with page size 10
returns the empty page and `hasMore = false`, for every seed and every
page `p ≥ 1`. -/
theorem paginate_empty (seed : String) (page : Int) (hp : 1 ≤ page)
    (now : Nat) : paginate ([] : List α) seed page 10 now = ⟨[], false⟩ := by
  have hsh : shuffleList (rngSeedOf seed now) ([] : List α) = [] :=
    (shuffleList_perm _ _).eq_nil
  simp only [paginate, hsh, PageResult.mk.injEq]
  constructor
  · simp [jsSlice]
  · rw [decide_eq_false_iff_not]
    simp only [List.length_nil, Int.natCast_zero]
    omega

/-- Witness for claim C8: the concrete spec example
`paginate([], "seed", 1, 10) = ([], false)`. -/
theorem paginate_empty_witness :
    paginate ([] : List Nat) ("seed") 1 10 0 = ⟨[], false⟩ :=
  paginate_empty ("seed") 1 (by decide) 0

theorem lowerChar_toNat {c : Char} (h : 65 ≤ c.toNat ∧ c.toNat ≤ 90) :
    (lowerChar c).toNat = c.toNat + 32 := by
  rw [lowerChar, if_pos h]
  have hv : (c.toNat + 32).isValidChar := Or.inl (by
    have := c.val.toNat_lt
    omega)
  rw [Char.ofNat, dif_pos hv]
  rfl

theorem lowerChar_idem (c : Char) : lowerChar (lowerChar c) = lowerChar c := by
  by_cases h : 65 ≤ c.toNat ∧ c.toNat ≤ 90
  · have h2 := lowerChar_toNat h
    rw [lowerChar, if_neg (by rw [h2]; omega)]
  · rw [lowerChar, if_neg (by rw [lowerChar, if_neg h]; exact h)]

theorem map_lowerChar_idem (l : List Char) :
    (l.map lowerChar).map lowerChar = l.map lowerChar := by
  induction l with
  | nil => rfl
  | cons c l ih => simp [lowerChar_idem, ih]

theorem jsToLower_idem (s : String) : jsToLower (jsToLower s) = jsToLower s := by
  show String.mk ((s.data.map lowerChar).map lowerChar) = _
  rw [map_lowerChar_idem]
  rfl

/-- Claim C9: the handler lowercases the seed before deriving the
generator, so the feed pagination result with seed `s` is identical to
the result with the lowercased seed, for every candidate list, page and
page size. -/
theorem getVideoOptionsCore_seed_case_insensitive (videos : List α)
    (s : String) (pageQ limitQ : Option String) (now : Nat) :
    getVideoOptionsCore videos (some s) pageQ limitQ now =
      getVideoOptionsCore videos (some (jsToLower s)) pageQ limitQ now := by
  show paginate videos (jsToLower s) _ _ now =
    paginate videos (jsToLower (jsToLower s)) _ _ now
  rw [jsToLower_idem]

/-- Claim C3: for `page ≥ 1` and `limit > 0` the paginator returns
exactly the slice `[(page-1)*limit, page*limit)` of the seeded
permutation and `hasMore = (page*limit < length)`; in particular over
25 candidates with page size 10, page 1 has 10 items with
`hasMore = true` and page 3 has 5 items with `hasMore = false`. -/
theorem paginate_slice_spec (videos : List α) (seed : String)
    (page limit : Int) (now : Nat) (h1 : 1 ≤ page) (h2 : 0 < limit) :
    ((paginate videos seed page limit now).pageItems =
        ((shuffleList (rngSeedOf seed now) videos).drop
          (((page - 1) * limit).toNat)).take limit.toNat ∧
      (paginate videos seed page limit now).hasMore =
        decide (page * limit < (videos.length : Int))) ∧
    (paginate (List.range 25) ("seed") 1 10 0).pageItems.length = 10 ∧
    (paginate (List.range 25) ("seed") 1 10 0).hasMore = true ∧
    (paginate (List.range 25) ("seed") 3 10 0).pageItems.length = 5 ∧
    (paginate (List.range 25) ("seed") 3 10 0).hasMore = false :=
  ⟨⟨paginate_pageItems_eq videos seed page limit now h1 h2,
      paginate_hasMore_eq videos seed page limit now⟩,
    by decide, by decide, by decide, by decide⟩

/-- Witness for claim C3 at the spec's concrete boundary example. -/
theorem paginate_slice_spec_witness :
    ((paginate (List.range 25) ("seed") 1 10 0).pageItems =
        ((shuffleList (rngSeedOf ("seed") 0) (List.range 25)).drop
          (((1 - 1) * 10 : Int).toNat)).take (10 : Int).toNat ∧
      (paginate (List.range 25) ("seed") 1 10 0).hasMore =
        decide ((1 * 10 : Int) < ((List.range 25).length : Int))) ∧
    (paginate (List.range 25) ("seed") 1 10 0).pageItems.length = 10 ∧
    (paginate (List.range 25) ("seed") 1 10 0).hasMore = true ∧
    (paginate (List.range 25) ("seed") 3 10 0).pageItems.length = 5 ∧
    (paginate (List.range 25) ("seed") 3 10 0).hasMore = false :=
  paginate_slice_spec (List.range 25) ("seed") 1 10 0 (by decide) (by decide)

/-- Counterexample to claim C5 as stated: a `page` query of `"-1"`
parses to `-1 < 1` but is not treated as page 1 — JavaScript `slice`
interprets the negative start index from the end of the array, so the
result differs from the normalized call. -/
theorem getVideoOptionsCore_negative_page_counterexample :
    getVideoOptionsCore (List.range 3) (some ("s")) (some ("-1")) (some ("2"))
        0 ≠
      getVideoOptionsCore (List.range 3) (some ("s")) (some ("1")) (some ("2"))
        0 := by
  decide

/-- Claim C5 as amended: each argument is normalized independently —
a page argument that parses to `0` or fails to parse (`NaN`) is
treated as page 1 whatever the pageSize argument is, and a pageSize
argument that parses to `0` or fails to parse is treated as the
default 10 whatever the page argument is (the falsy-value semantics of
`parseInt(x) || d`); negative parsed values are used as they are. -/
theorem getVideoOptionsCore_normalizes_falsy (videos : List α)
    (seedQ pageQ limitQ : Option String) (now : Nat) :
    (Option.bind pageQ jsParseInt = none ∨
        Option.bind pageQ jsParseInt = some 0 →
      getVideoOptionsCore videos seedQ pageQ limitQ now =
        getVideoOptionsCore videos seedQ (some ("1")) limitQ now) ∧
    (Option.bind limitQ jsParseInt = none ∨
        Option.bind limitQ jsParseInt = some 0 →
      getVideoOptionsCore videos seedQ pageQ limitQ now =
        getVideoOptionsCore videos seedQ pageQ (some ("10")) now) := by
  constructor
  · intro hp
    unfold getVideoOptionsCore
    have h1 : jsOrInt (Option.bind pageQ jsParseInt) 1 = 1 := by
      rcases hp with h | h <;> rw [h] <;> simp [jsOrInt]
    have h2 : jsOrInt (Option.bind (some ("1")) jsParseInt) 1 = 1 := by
      decide
    rw [h1, h2]
  · intro hl
    unfold getVideoOptionsCore
    have h1 : jsOrInt (Option.bind limitQ jsParseInt) 10 = 10 := by
      rcases hl with h | h <;> rw [h] <;> simp [jsOrInt]
    have h2 : jsOrInt (Option.bind (some ("10")) jsParseInt) 10 = 10 := by
      decide
    rw [h1, h2]

/-- Witness for the amended claim C5, exercising the mixed cases: a
missing page parameter is normalized while the `"2"` pageSize is kept,
and a `"0"` pageSize parameter is normalized while the `"1"` page is
kept. -/
theorem getVideoOptionsCore_normalizes_falsy_witness :
    getVideoOptionsCore (List.range 3) (some ("s")) none (some ("2")) 0 =
      getVideoOptionsCore (List.range 3) (some ("s")) (some ("1"))
        (some ("2")) 0 ∧
    getVideoOptionsCore (List.range 3) (some ("s")) (some ("1"))
        (some ("0")) 0 =
      getVideoOptionsCore (List.range 3) (some ("s")) (some ("1"))
        (some ("10")) 0 :=
  ⟨(getVideoOptionsCore_normalizes_falsy (List.range 3) (some ("s")) none
      (some ("2")) 0).1 (Or.inl rfl),
    (getVideoOptionsCore_normalizes_falsy (List.range 3) (some ("s"))
      (some ("1")) (some ("0")) 0).2 (Or.inr (by decide))⟩

theorem le_numPages_mul (len n : Nat) (hn : 0 < n) :
    len ≤ numPages len n * n := by
  unfold numPages
  by_cases h : len = 0
  · simp [h]
  · rw [if_neg h]
    have h2 : len - 1 < ((len - 1) / n + 1) * n :=
      (Nat.div_lt_iff_lt_mul hn).mp (Nat.lt_succ_self _)
    exact Nat.le_of_pred_lt h2

theorem mul_lt_of_lt_numPages {len n p : Nat} (h1 : 1 ≤ p)
    (hp : p < numPages len n) : p * n < len := by
  unfold numPages at hp
  by_cases h : len = 0
  · rw [if_pos h] at hp
    omega
  · rw [if_neg h] at hp
    have hle : p ≤ (len - 1) / n := by omega
    have := le_trans (Nat.mul_le_mul_right n hle) (Nat.div_mul_le_self _ _)
    exact Nat.lt_of_le_of_lt this (by omega)

theorem chunk_join (n : Nat) : ∀ (k : Nat) (l : List α),
    l.length ≤ k * n →
    ((List.range k).flatMap fun i => (l.drop (i * n)).take n) = l := by
  intro k
  induction k with
  | zero =>
    intro l h
    simp only [Nat.zero_mul, Nat.le_zero] at h
    rw [List.eq_nil_of_length_eq_zero h]
    rfl
  | succ k ih =>
    intro l h
    rw [List.range_succ_eq_map, List.flatMap_cons, List.flatMap_map]
    have htail : ∀ i : Nat,
        ((l.drop ((i + 1) * n)).take n) =
          (((l.drop n).drop (i * n)).take n) := by
      intro i
      rw [List.drop_drop]
      congr 2
      rw [Nat.succ_mul]
      omega
    simp only [htail]
    have hlen : (l.drop n).length ≤ k * n := by
      rw [List.length_drop]
      rw [Nat.succ_mul] at h
      generalize k * n = m at h ⊢
      omega
    rw [ih (l.drop n) hlen]
    simp only [Nat.zero_mul, List.drop_zero]
    exact List.take_append_drop n l

/-- Claim C4: for a fixed non-empty seed, concatenating the page items
of `paginate` for pages `1, 2, ...` until `hasMore = false` yields a
permutation of the candidate list — every candidate exactly once, no
duplicates, no omissions.  `numPages` is exactly the page at which
`hasMore` first turns false: it is still true on every earlier page. -/
theorem paginate_coverage (videos : List α) (seed : String) (hs : seed ≠ "")
    (n : Nat) (hn : 0 < n) (now : Nat) :
    (((List.range (numPages videos.length n)).flatMap fun i =>
        (paginate videos seed ((i : Int) + 1) (n : Int) now).pageItems).Perm
      videos) ∧
    (paginate videos seed ((numPages videos.length n : Nat) : Int) (n : Int)
        now).hasMore = false ∧
    (∀ p : Nat, 1 ≤ p → p < numPages videos.length n →
      (paginate videos seed ((p : Nat) : Int) (n : Int) now).hasMore = true) := by
  have hitems : ∀ i : Nat,
      (paginate videos seed ((i : Int) + 1) (n : Int) now).pageItems =
        ((shuffleList (rngSeedOf seed now) videos).drop (i * n)).take n := by
    intro i
    rw [paginate_pageItems_eq videos seed _ _ now (by omega)
      (by exact_mod_cast hn)]
    have ha : (((i : Int) + 1 - 1) * (n : Int)).toNat = i * n := by
      have : ((i : Int) + 1 - 1) * (n : Int) = ((i * n : Nat) : Int) := by
        push_cast
        ring
      rw [this, Int.toNat_ofNat]
    have hb : ((n : Nat) : Int).toNat = n := Int.toNat_ofNat n
    rw [ha, hb]
  refine ⟨?_, ?_, ?_⟩
  · simp only [hitems]
    have hlen : (shuffleList (rngSeedOf seed now) videos).length ≤
        numPages videos.length n * n := by
      rw [shuffleList_length]
      exact le_numPages_mul videos.length n hn
    rw [chunk_join n (numPages videos.length n) _ hlen]
    exact shuffleList_perm _ _
  · rw [paginate_hasMore_eq]
    rw [decide_eq_false_iff_not]
    have h := le_numPages_mul videos.length n hn
    intro hcon
    rw [show ((numPages videos.length n : Nat) : Int) * ((n : Nat) : Int) =
        ((numPages videos.length n * n : Nat) : Int) by push_cast; ring] at hcon
    have : (videos.length : Int) ≤ ((numPages videos.length n * n : Nat) : Int) := by
      exact_mod_cast h
    omega
  · intro p h1 hp
    rw [paginate_hasMore_eq]
    rw [decide_eq_true_eq]
    have h := mul_lt_of_lt_numPages h1 hp
    rw [show ((p : Nat) : Int) * ((n : Nat) : Int) = ((p * n : Nat) : Int) by
      push_cast; ring]
    exact_mod_cast h

/-- Witness for claim C4 over five candidates with page size 2: three
pages, whose concatenation is a permutation of the input; `hasMore` is
false exactly on page 3. -/
theorem paginate_coverage_witness :
    (((List.range (numPages (List.range 5).length 2)).flatMap fun i =>
        (paginate (List.range 5) ("s") ((i : Int) + 1) (2 : Int)
          0).pageItems).Perm (List.range 5)) ∧
    (paginate (List.range 5) ("s")
        ((numPages (List.range 5).length 2 : Nat) : Int) (2 : Int)
        0).hasMore = false ∧
    (paginate (List.range 5) ("s") ((1 : Nat) : Int) (2 : Int)
        0).hasMore = true :=
  have h := paginate_coverage (List.range 5) ("s") (by decide) 2 (by decide) 0
  ⟨h.1, h.2.1, h.2.2 1 (by decide) (by decide)⟩

theorem keyLt_trans {x y z : String × String} (h1 : keyLt x y)
    (h2 : keyLt y z) : keyLt x z := by
  rcases h1 with h1 | ⟨h1a, h1b⟩ <;> rcases h2 with h2 | ⟨h2a, h2b⟩
  · exact Or.inl (lt_trans h1 h2)
  · exact Or.inl (h2a ▸ h1)
  · exact Or.inl (h1a ▸ h2)
  · exact Or.inr ⟨h1a.trans h2a, lt_trans h1b h2b⟩

theorem keyLt_trichotomy (x y : String × String) :
    keyLt x y ∨ x = y ∨ keyLt y x := by
  rcases lt_trichotomy x.1 y.1 with h | h | h
  · exact Or.inl (Or.inl h)
  · rcases lt_trichotomy x.2 y.2 with h2 | h2 | h2
    · exact Or.inl (Or.inr ⟨h, h2⟩)
    · exact Or.inr (Or.inl (Prod.ext h h2))
    · exact Or.inr (Or.inr (Or.inr ⟨h.symm, h2⟩))
  · exact Or.inr (Or.inr (Or.inl h))

instance : IsTotal CommentDoc commentRel where
  total a b := by
    rcases keyLt_trichotomy (ckey a) (ckey b) with h | h | h
    · exact Or.inr (Or.inl h)
    · exact Or.inl (Or.inr h)
    · exact Or.inl (Or.inl h)

instance : IsTrans CommentDoc commentRel where
  trans a b c hab hbc := by
    rcases hab with hab | hab <;> rcases hbc with hbc | hbc
    · exact Or.inl (keyLt_trans hbc hab)
    · exact Or.inl (hbc ▸ hab)
    · exact Or.inl (hab ▸ hbc)
    · exact Or.inr (hab.trans hbc)

theorem orderComments_perm (l : List CommentDoc) :
    (orderComments l).Perm l :=
  List.perm_insertionSort commentRel l

theorem orderComments_sorted (l : List CommentDoc) :
    List.Pairwise commentRel (orderComments l) :=
  List.sorted_insertionSort commentRel l

theorem dropThrough_sublist (d : CommentDoc) (l : List CommentDoc) :
    (dropThrough d l).Sublist l := by
  induction l with
  | nil => exact List.Sublist.refl []
  | cons e l ih =>
    rw [dropThrough]
    split
    · exact List.sublist_cons_self e l
    · exact ih.trans (List.sublist_cons_self e l)

theorem dropThrough_rel {R : CommentDoc → CommentDoc → Prop}
    {l : List CommentDoc} (h : List.Pairwise R l) (d : CommentDoc) :
    ∀ c ∈ dropThrough d l, R d c := by
  induction l with
  | nil => intro c hc; simp [dropThrough] at hc
  | cons e l ih =>
    rw [dropThrough]
    rw [List.pairwise_cons] at h
    split
    · intro c hc
      next he => exact he ▸ h.1 c hc
    · exact ih h.2

theorem commentsAfterCursor_sublist (comments : List CommentDoc)
    (cursor : Option String) :
    (commentsAfterCursor comments cursor).Sublist (orderComments comments) := by
  unfold commentsAfterCursor
  cases hcl : cursorLookup comments cursor with
  | none => exact List.Sublist.refl _
  | some d => exact dropThrough_sublist d _

theorem getCommentsCore_fst (comments : List CommentDoc)
    (cursor : Option String) :
    (getCommentsCore comments cursor).1 =
      ((commentsAfterCursor comments cursor).take 11).take 10 := by
  show jsSlice ((commentsAfterCursor comments cursor).take 11) 0 10 = _
  have h := jsSlice_eq_drop_take
    ((commentsAfterCursor comments cursor).take 11) 0 10 (le_refl 0)
    (by omega)
  norm_num at h
  exact h

/-- Claim C10: one call of the comment listing returns at most 10
comments, ordered by timestamp descending; with an existing cursor
document every returned comment lies strictly after it in the query
order; and `hasMore = true` exactly when an 11th comment after the
cursor exists (the query fetches up to 11 and the response carries the
first 10).  The hypothesis is Firestore's guarantee that document ids
within one collection are unique. -/
theorem getComments_spec (comments : List CommentDoc)
    (cursor : Option String)
    (hids : (comments.map (fun d => d.id)).Nodup) :
    (getCommentsCore comments cursor).1.length ≤ 10 ∧
    List.Pairwise
      (fun a b => b.timestamp < a.timestamp ∨ b.timestamp = a.timestamp)
      (getCommentsCore comments cursor).1 ∧
    ((getCommentsCore comments cursor).2 = true ↔
      11 ≤ (commentsAfterCursor comments cursor).length) ∧
    (∀ d, cursorLookup comments cursor = some d →
      ∀ c ∈ (getCommentsCore comments cursor).1,
        keyLt (ckey c) (ckey d)) := by
  have hfst := getCommentsCore_fst comments cursor
  refine ⟨?_, ?_, ?_, ?_⟩
  · rw [hfst, List.length_take]
    exact min_le_left _ _
  · rw [hfst]
    have hsub : ((((commentsAfterCursor comments cursor).take 11).take
        10)).Sublist (orderComments comments) :=
      ((List.take_sublist _ _).trans (List.take_sublist _ _)).trans
        (commentsAfterCursor_sublist comments cursor)
    refine ((orderComments_sorted comments).sublist hsub).imp ?_
    intro a b h
    rcases h with h | h
    · rcases h with h | ⟨h1, _⟩
      · exact Or.inl h
      · exact Or.inr h1
    · exact Or.inr (congrArg Prod.fst h).symm
  · show decide (10 < ((commentsAfterCursor comments cursor).take
        11).length) = true ↔ _
    rw [decide_eq_true_eq, List.length_take]
    omega
  · intro d hd c hc
    rw [hfst] at hc
    have hmem : c ∈ dropThrough d (orderComments comments) := by
      have : c ∈ commentsAfterCursor comments cursor :=
        List.take_subset _ _ (List.take_subset _ _ hc)
      rwa [show commentsAfterCursor comments cursor =
        dropThrough d (orderComments comments) by
          unfold commentsAfterCursor
          rw [hd]] at this
    have hnodup : ((orderComments comments).map (fun d => d.id)).Nodup :=
      ((orderComments_perm comments).map (fun d => d.id)).nodup_iff.mpr hids
    have hpneq : List.Pairwise (fun a b : CommentDoc => ¬ a.id = b.id)
        (orderComments comments) := List.pairwise_map.mp hnodup
    have hand := (orderComments_sorted comments).and hpneq
    have hrel := dropThrough_rel hand d c hmem
    rcases hrel.1 with h | h
    · exact h
    · exact absurd (congrArg Prod.snd h) hrel.2

/-- Witness for claim C10 on a concrete three-comment collection with
the newest comment as cursor. -/
theorem getComments_spec_witness :
    (getCommentsCore commentsEx (some ("a"))).1.length ≤ 10 ∧
    List.Pairwise
      (fun a b => b.timestamp < a.timestamp ∨ b.timestamp = a.timestamp)
      (getCommentsCore commentsEx (some ("a"))).1 ∧
    ((getCommentsCore commentsEx (some ("a"))).2 = true ↔
      11 ≤ (commentsAfterCursor commentsEx (some ("a"))).length) ∧
    (∀ d, cursorLookup commentsEx (some ("a")) = some d →
      ∀ c ∈ (getCommentsCore commentsEx (some ("a"))).1,
        keyLt (ckey c) (ckey d)) :=
  getComments_spec commentsEx (some ("a")) (by decide)
